import Mathlib

/-!
The `jtag_tick` adapter of SimJTAG.

A shallow embedding of `src/SimJTAG/SimJTAG.cc`.  The translation unit holds one
global pointer `remote_bitbang_t* jtag` and one function `jtag_tick` that lazily
constructs the bridge, forwards the pins to its `tick`, and packs `done()` and
`exit_code()` into the returned `int`.

The class `remote_bitbang_t` is declared in `remote_bitbang.h`, which is not part of
the sources; it enters the development as a parameter (`remote_bitbang_t β`).
-/

namespace SimJTAG

/-- Byte memory of the caller: the `unsigned char` cells the pin pointers refer to.
Addresses are natural numbers, `0` being the null pointer. -/
abbrev Mem := Nat → Nat

/-- One invocation of a member of the bridge class, as seen from the adapter:
the constructor with its argument, or a method with the object pointer it is
called through and its arguments. -/
inductive Call where
  | ctor (port : Nat)
  | tick (self : Nat) (tck tms tdi trstn tdo : Nat)
  | done (self : Nat)
  | exit_code (self : Nat)
  deriving DecidableEq

/-- Modelled from the spec: the class `remote_bitbang_t` of the absent header
`remote_bitbang.h`, over an arbitrary type `β` of object states.  The adapter uses
four members: the constructor taking the port (construction may fail, in which
case no object is produced), `tick` taking the four pin pointers and the `TDO`
byte (it may update the object and the caller's bytes), `done()` whose result is
used as a condition, and `exit_code()` whose result is an `int`.  `done` and
`exit_code` may update the object as any member function may. -/
structure remote_bitbang_t (β : Type) where
  ctor : Nat → Option β
  tick : β → Mem → Nat → Nat → Nat → Nat → Nat → β × Mem
  done : β → Bool × β
  exit_code : β → Int × β

/-- The state of the process as far as the adapter is concerned.
* `heap`: the bridge objects created by `new` so far; nothing is ever deleted, the
  object at address `k + 1` is `heap[k]`;
* `jtag`: the global `remote_bitbang_t* jtag` (zero until first assigned);
* `mem`: the caller's bytes;
* `log`: the calls into the bridge class made so far, oldest first. -/
structure World (β : Type) where
  heap : List β
  jtag : Nat
  mem : Mem
  log : List Call

/-- The state at process start: nothing allocated, `jtag` null, nothing called. -/
def World.start (β : Type) (m : Mem) : World β :=
  { heap := [], jtag := 0, mem := m, log := [] }

/-- Dereference of an object pointer: fails on null and on an address that holds no object. -/
def World.deref {β : Type} (w : World β) (p : Nat) : Option β :=
  if p = 0 then none else w.heap.get? (p - 1)

/-- Write back the state of the object at `p`. -/
def World.put {β : Type} (w : World β) (p : Nat) (b : β) : World β :=
  { w with heap := w.heap.set (p - 1) b }

/-- Reduction of a mathematical integer to the 32-bit `int` congruent to it modulo `2^32`. -/
def wrap_int (x : Int) : Int := (x + 2 ^ 31) % 2 ^ 32 - 2 ^ 31

/-- The `int` expression `e << k`: the value congruent to `e * 2^k` modulo `2^32`, which
is how the language defines a left shift on a signed 32-bit operand. -/
def shl_int (e : Int) (k : Nat) : Int := wrap_int (e * 2 ^ k)

/-- The expression `new remote_bitbang_t(port)`: run the constructor and place the object
at a fresh address; no result when construction fails. -/
def new_remote_bitbang_t {β : Type} (B : remote_bitbang_t β) (w : World β) (port : Nat) :
    Option (Nat × World β) :=
  match B.ctor port with
  | none => none
  | some b =>
    some (w.heap.length + 1,
      { w with heap := w.heap ++ [b], log := w.log ++ [Call.ctor port] })

/-- The call `p->tick(tck, tms, tdi, trstn, tdo)`. -/
def call_tick {β : Type} (B : remote_bitbang_t β) (w : World β) (p : Nat)
    (tck tms tdi trstn tdo : Nat) : Option (World β) :=
  match w.deref p with
  | none => none
  | some b =>
    let r := B.tick b w.mem tck tms tdi trstn tdo
    some { w.put p r.1 with mem := r.2, log := w.log ++ [Call.tick p tck tms tdi trstn tdo] }

/-- The call `p->done()`. -/
def call_done {β : Type} (B : remote_bitbang_t β) (w : World β) (p : Nat) :
    Option (Bool × World β) :=
  match w.deref p with
  | none => none
  | some b =>
    let r := B.done b
    some (r.1, { w.put p r.2 with log := w.log ++ [Call.done p] })

/-- The call `p->exit_code()`. -/
def call_exit_code {β : Type} (B : remote_bitbang_t β) (w : World β) (p : Nat) :
    Option (Int × World β) :=
  match w.deref p with
  | none => none
  | some b =>
    let r := B.exit_code b
    some (r.1, { w.put p r.2 with log := w.log ++ [Call.exit_code p] })

/-- Lines 15-18: `if (!jtag) { jtag = new remote_bitbang_t(jtag_port); }`. -/
def ensure_bridge {β : Type} (B : remote_bitbang_t β) (w : World β) (jtag_port : Nat) :
    Option (World β) :=
  if w.jtag = 0 then
    match new_remote_bitbang_t B w jtag_port with
    | none => none
    | some r => some { r.2 with jtag := r.1 }
  else
    some w

/-- Line 22: `return jtag->done() ? (jtag->exit_code() << 1 | 1) : 0;`.
`exit_code()` is only called when `done()` was true. -/
def return_status {β : Type} (B : remote_bitbang_t β) (w : World β) : Option (Int × World β) :=
  match call_done B w w.jtag with
  | none => none
  | some (d, w3) =>
    if d then
      match call_exit_code B w3 w3.jtag with
      | none => none
      | some (e, w4) => some (Int.lor (shl_int e 1) 1, w4)
    else
      some (0, w3)

/-- The function `jtag_tick`.  The result is the returned `int` and the state after
the call; there is no result when construction fails or a null pointer is used. -/
def jtag_tick {β : Type} (B : remote_bitbang_t β) (w : World β)
    (jtag_TCK jtag_TMS jtag_TDI jtag_TRSTn jtag_TDO jtag_port : Nat) :
    Option (Int × World β) :=
  match ensure_bridge B w jtag_port with
  | none => none
  | some w1 =>
    match call_tick B w1 w1.jtag jtag_TCK jtag_TMS jtag_TDI jtag_TRSTn jtag_TDO with
    | none => none
    | some w2 => return_status B w2

/-! ## Observers used to state the properties -/

/-- A call can proceed: when `jtag` is null, construction with this port succeeds;
otherwise `jtag` refers to an object that was allocated. -/
def Ready {β : Type} (B : remote_bitbang_t β) (w : World β) (port : Nat) : Prop :=
  if w.jtag = 0 then (B.ctor port).isSome = true else w.jtag ≤ w.heap.length

instance {β : Type} (B : remote_bitbang_t β) (w : World β) (port : Nat) :
    Decidable (Ready B w port) := by
  unfold Ready
  exact inferInstance

/-- The bridge object, in the state in which this call's `tick` finds it. -/
def bridge_at_tick {β : Type} (B : remote_bitbang_t β) (w : World β) (port : Nat) : Option β :=
  match ensure_bridge B w port with
  | none => none
  | some w1 => w1.deref w1.jtag

/-- What `done()` reports right after `tick` ran on an object in state `b`. -/
def done_after_tick {β : Type} (B : remote_bitbang_t β) (b : β) (m : Mem)
    (tck tms tdi trstn tdo : Nat) : Bool :=
  (B.done (B.tick b m tck tms tdi trstn tdo).1).1

/-- What `exit_code()` reports when called after that `done()`. -/
def exit_code_after_tick {β : Type} (B : remote_bitbang_t β) (b : β) (m : Mem)
    (tck tms tdi trstn tdo : Nat) : Int :=
  (B.exit_code (B.done (B.tick b m tck tms tdi trstn tdo).1).2).1

/-- The state in which the object is left by `tick`, `done()` and, when `done()` was
true, `exit_code()`. -/
def bridge_after_call {β : Type} (B : remote_bitbang_t β) (b : β) (m : Mem)
    (tck tms tdi trstn tdo : Nat) : β :=
  if done_after_tick B b m tck tms tdi trstn tdo then
    (B.exit_code (B.done (B.tick b m tck tms tdi trstn tdo).1).2).2
  else
    (B.done (B.tick b m tck tms tdi trstn tdo).1).2

/-- The spec's `(exit_code << 1) | 1` read on 32-bit words: take the two's complement
pattern of the exit code, shift it left by one inside 32 bits, set bit 0, and read the
pattern back as a signed `int`. -/
def spec_status_word (e : Int) : Int :=
  let pattern : Nat := (e % 2 ^ 32).toNat
  let shifted : Nat := (pattern <<< 1) % 2 ^ 32
  let word : Nat := shifted ||| 1
  if word < 2 ^ 31 then (word : Int) else (word : Int) - 2 ^ 32

/-- The ports of the constructor calls in a log, oldest first. -/
def ctor_calls : List Call → List Nat
  | [] => []
  | Call.ctor p :: l => p :: ctor_calls l
  | _ :: l => ctor_calls l

/-- The `tick` calls in a log, oldest first. -/
def tick_calls : List Call → List Call
  | [] => []
  | Call.tick p a b c d t :: l => Call.tick p a b c d t :: tick_calls l
  | _ :: l => tick_calls l

/-- The object pointers through which the methods in a log were called. -/
def receivers : List Call → List Nat
  | [] => []
  | Call.ctor _ :: l => receivers l
  | Call.tick p _ _ _ _ _ :: l => p :: receivers l
  | Call.done p :: l => p :: receivers l
  | Call.exit_code p :: l => p :: receivers l

/-- One call of `jtag_tick` by the simulation harness: what the harness did to its
bytes since the previous call, and the six arguments. -/
structure TickCall where
  pre : Mem → Mem
  tck : Nat
  tms : Nat
  tdi : Nat
  trstn : Nat
  tdo : Nat
  port : Nat

/-- A sequence of calls of `jtag_tick`, each on the state left by the previous one.
There is no result when one of the calls has none. -/
def run {β : Type} (B : remote_bitbang_t β) : World β → List TickCall → Option (World β)
  | w, [] => some w
  | w, c :: cs =>
    match jtag_tick B { w with mem := c.pre w.mem } c.tck c.tms c.tdi c.trstn c.tdo c.port with
    | none => none
    | some r => run B r.2 cs

/-- A sample bridge: the object counts its ticks, construction fails on port `0`,
`tick` copies `TDO` to the `TCK` cell, the session is done from the third tick on and
the exit code is the tick count. -/
def counting_bridge : remote_bitbang_t Nat where
  ctor := fun p => if p = 0 then none else some 0
  tick := fun b m tck _ _ _ tdo => (b + 1, fun a => if a = tck then tdo else m a)
  done := fun b => (decide (3 ≤ b), b)
  exit_code := fun b => (b, b)

/-- A sample bridge without state that always reports the same `done` and exit code. -/
def fixed_bridge (d : Bool) (e : Int) : remote_bitbang_t Unit where
  ctor := fun _ => some ()
  tick := fun b m _ _ _ _ _ => (b, m)
  done := fun b => (d, b)
  exit_code := fun b => (e, b)

/-- A sample bridge whose session finishes at its first tick, with exit code `5`:
the object state is whether a tick has happened. -/
def one_shot_bridge : remote_bitbang_t Bool where
  ctor := fun _ => some false
  tick := fun _ m _ _ _ _ _ => (true, m)
  done := fun b => (b, b)
  exit_code := fun b => (5, b)

/-- A memory with every byte zero. -/
def zero_mem : Mem := fun _ => 0

/-- A sample state after some earlier call: one bridge in state `2`, `jtag` pointing at it. -/
def sample_world : World Nat :=
  { heap := [2], jtag := 1, mem := zero_mem, log := [Call.ctor 9] }

/-- A sample call: the harness leaves its bytes alone and passes port `7`. -/
def sample_call : TickCall :=
  { pre := fun m => m, tck := 10, tms := 11, tdi := 12, trstn := 13, tdo := 1, port := 7 }

/-- Closed form of what lines 20 and 22 produce from a state whose `jtag` points at an
object in state `b`: the returned `int` and the state after the call. -/
def call_outcome {β : Type} (B : remote_bitbang_t β) (w : World β) (b : β)
    (tck tms tdi trstn tdo : Nat) : Int × World β :=
  (if done_after_tick B b w.mem tck tms tdi trstn tdo then
      Int.lor (shl_int (exit_code_after_tick B b w.mem tck tms tdi trstn tdo) 1) 1
    else 0,
    { heap := w.heap.set (w.jtag - 1) (bridge_after_call B b w.mem tck tms tdi trstn tdo),
      jtag := w.jtag,
      mem := (B.tick b w.mem tck tms tdi trstn tdo).2,
      log := w.log ++ Call.tick w.jtag tck tms tdi trstn tdo :: Call.done w.jtag ::
        (if done_after_tick B b w.mem tck tms tdi trstn tdo then [Call.exit_code w.jtag]
         else []) })

/-! ## Auxiliary facts -/

theorem int_lor_zero (k : Int) : Int.lor k 0 = k := by
  cases k with
  | ofNat m => simp [Int.lor]
  | negSucc m =>
    show Int.lor (Int.negSucc m) (Int.ofNat 0) = _
    simp [Int.lor, Nat.ldiff]

theorem int_lor_one_of_even (k : Int) : Int.lor (2 * k) 1 = 2 * k + 1 := by
  have h1 : (2 * k : Int) = Int.bit false k := by rw [Int.bit_val]; simp
  have h2 : (1 : Int) = Int.bit true 0 := by rw [Int.bit_val]; simp
  rw [h1]
  conv_lhs => rw [h2]
  rw [Int.lor_bit, int_lor_zero, Int.bit_val, Int.bit_val]
  simp

theorem nat_lor_one_of_even (k : Nat) : (2 * k) ||| 1 = 2 * k + 1 := by
  have h1 : 2 * k = Nat.bit false k := by simp [Nat.bit_val]
  have h2 : 1 = Nat.bit true 0 := by simp [Nat.bit_val]
  rw [h1]
  conv_lhs => rw [h2]
  rw [Nat.lor_bit]
  simp [Nat.bit_val]

theorem shl_int_one (e : Int) : shl_int e 1 = 2 * ((e + 2 ^ 30) % 2 ^ 31 - 2 ^ 30) := by
  unfold shl_int wrap_int
  norm_num
  omega

theorem status_word_eq (e : Int) :
    Int.lor (shl_int e 1) 1 = 2 * ((e + 2 ^ 30) % 2 ^ 31 - 2 ^ 30) + 1 := by
  rw [shl_int_one, int_lor_one_of_even]

theorem status_word_spec (e : Int) : Int.lor (shl_int e 1) 1 = spec_status_word e := by
  rw [status_word_eq]
  unfold spec_status_word
  simp only [Nat.shiftLeft_eq]
  have hk : ((e % 2 ^ 32).toNat * 2 ^ 1) % 2 ^ 32 = 2 * (((e % 2 ^ 32).toNat * 2 ^ 1) % 2 ^ 32 / 2) := by
    omega
  rw [hk, nat_lor_one_of_even]
  have hnn : 0 ≤ e % 2 ^ 32 := Int.emod_nonneg _ (by norm_num)
  have hc : ((e % 2 ^ 32).toNat : Int) = e % 2 ^ 32 := Int.toNat_of_nonneg hnn
  split <;> (norm_num at *; omega)

theorem testBit_zero_eq_bodd (x : Int) : x.testBit 0 = x.bodd := by
  conv_lhs => rw [← Int.bit_decomp x]
  rw [Int.testBit_bit_zero]

theorem testBit_succ_eq_div2 (x : Int) (i : Nat) : x.testBit (i + 1) = x.div2.testBit i := by
  conv_lhs => rw [← Int.bit_decomp x]
  rw [Int.testBit_bit_succ]

theorem testBit_congr (n : Nat) : ∀ x y : Int, (∃ c : Int, x - y = 2 ^ n * c) →
    ∀ i, i < n → x.testBit i = y.testBit i := by
  induction n with
  | zero => intro x y _ i hi; omega
  | succ n ih =>
    intro x y hc i hi
    obtain ⟨c, hc⟩ := hc
    have hx := Int.bodd_add_div2 x
    have hy := Int.bodd_add_div2 y
    have hp : (2 : Int) ^ (n + 1) * c = 2 * (2 ^ n * c) := by ring
    rw [hp] at hc
    obtain ⟨t, ht⟩ : ∃ t : Int, t = 2 ^ n * c := ⟨_, rfl⟩
    rw [← ht] at hc
    have hb : x.bodd = y.bodd ∧ x.div2 - y.div2 = t := by
      cases hbx : x.bodd <;> cases hby : y.bodd <;> rw [hbx] at hx <;> rw [hby] at hy <;>
        simp only [cond_true, cond_false] at hx hy <;> constructor <;> first | rfl | omega
    cases i with
    | zero => rw [testBit_zero_eq_bodd, testBit_zero_eq_bodd, hb.1]
    | succ j =>
      rw [testBit_succ_eq_div2, testBit_succ_eq_div2]
      exact ih x.div2 y.div2 ⟨c, by rw [hb.2, ht]⟩ j (by omega)

theorem status_word_testBit_zero (e : Int) : (Int.lor (shl_int e 1) 1).testBit 0 = true := by
  rw [status_word_eq]
  have h : 2 * ((e + 2 ^ 30) % 2 ^ 31 - 2 ^ 30) + 1 = Int.bit true ((e + 2 ^ 30) % 2 ^ 31 - 2 ^ 30) := by
    rw [Int.bit_val]; simp
  rw [h, Int.testBit_bit_zero]

theorem status_word_testBit_succ (e : Int) (i : Nat) (hi : i < 31) :
    (Int.lor (shl_int e 1) 1).testBit (i + 1) = e.testBit i := by
  rw [status_word_eq]
  have h : 2 * ((e + 2 ^ 30) % 2 ^ 31 - 2 ^ 30) + 1 = Int.bit true ((e + 2 ^ 30) % 2 ^ 31 - 2 ^ 30) := by
    rw [Int.bit_val]; simp
  rw [h, Int.testBit_bit_succ]
  apply testBit_congr 31 _ _ _ i hi
  refine ⟨-((e + 2 ^ 30) / 2 ^ 31), ?_⟩
  norm_num
  omega

theorem status_word_range (e : Int) :
    -2 ^ 31 ≤ Int.lor (shl_int e 1) 1 ∧ Int.lor (shl_int e 1) 1 < 2 ^ 31 := by
  rw [status_word_eq]
  norm_num
  omega

theorem status_word_odd (e : Int) : Int.lor (shl_int e 1) 1 % 2 = 1 := by
  rw [status_word_eq]
  omega

theorem status_word_shiftRight (e : Int) (h1 : -2 ^ 30 ≤ e) (h2 : e < 2 ^ 30) :
    Int.shiftRight (Int.lor (shl_int e 1) 1) 1 = e := by
  rw [status_word_eq]
  show (2 * ((e + 2 ^ 30) % 2 ^ 31 - 2 ^ 30) + 1) >>> (1 : Nat) = e
  rw [Int.shiftRight_eq_div_pow]
  norm_num at *
  omega

theorem deref_of_live {β : Type} (w : World β) (h0 : w.jtag ≠ 0)
    (h1 : w.jtag ≤ w.heap.length) : ∃ b, w.deref w.jtag = some b := by
  have hlt : w.jtag - 1 < w.heap.length := by omega
  refine ⟨w.heap.get ⟨w.jtag - 1, hlt⟩, ?_⟩
  simp [World.deref, h0, List.getElem?_eq_getElem hlt]

theorem jtag_tick_live {β : Type} (B : remote_bitbang_t β) (w : World β)
    (tck tms tdi trstn tdo port : Nat) (b : β) (h0 : w.jtag ≠ 0)
    (h1 : w.jtag ≤ w.heap.length) (hb : w.deref w.jtag = some b) :
    jtag_tick B w tck tms tdi trstn tdo port = some (call_outcome B w b tck tms tdi trstn tdo) := by
  have hlt : w.jtag - 1 < w.heap.length := by omega
  simp only [jtag_tick, ensure_bridge, if_neg h0, call_tick, hb, return_status, call_done]
  simp [World.deref, World.put, h0, hlt, call_exit_code, call_outcome, done_after_tick,
    exit_code_after_tick, bridge_after_call]
  split <;> simp

theorem ensure_bridge_ready {β : Type} (B : remote_bitbang_t β) (w : World β) (port : Nat)
    (h : Ready B w port) :
    ∃ w1, ensure_bridge B w port = some w1 ∧ w1.jtag ≠ 0 ∧ w1.jtag ≤ w1.heap.length ∧
      w1.mem = w.mem ∧ (w.jtag ≠ 0 → w1 = w) ∧
      (w.jtag = 0 → ∃ b, B.ctor port = some b ∧
        w1 = { heap := w.heap ++ [b], jtag := w.heap.length + 1, mem := w.mem,
               log := w.log ++ [Call.ctor port] }) := by
  unfold Ready at h
  by_cases h0 : w.jtag = 0
  · rw [if_pos h0] at h
    obtain ⟨b, hb⟩ := Option.isSome_iff_exists.mp h
    refine ⟨{ heap := w.heap ++ [b], jtag := w.heap.length + 1, mem := w.mem,
              log := w.log ++ [Call.ctor port] }, ?_, ?_, ?_, rfl, ?_, ?_⟩
    · simp [ensure_bridge, h0, new_remote_bitbang_t, hb]
    · simp
    · simp
    · intro hne; exact absurd h0 hne
    · intro _; exact ⟨b, hb, rfl⟩
  · rw [if_neg h0] at h
    refine ⟨w, ?_, h0, h, rfl, fun _ => rfl, fun h0' => absurd h0' h0⟩
    simp [ensure_bridge, h0]

theorem jtag_tick_of_ensure {β : Type} (B : remote_bitbang_t β) (w w1 : World β)
    (tck tms tdi trstn tdo port : Nat) (he : ensure_bridge B w port = some w1)
    (h0 : w1.jtag ≠ 0) :
    jtag_tick B w tck tms tdi trstn tdo port = jtag_tick B w1 tck tms tdi trstn tdo port := by
  have he1 : ensure_bridge B w1 port = some w1 := by simp [ensure_bridge, h0]
  simp only [jtag_tick, he, he1]

theorem jtag_tick_ready {β : Type} (B : remote_bitbang_t β) (w : World β)
    (tck tms tdi trstn tdo port : Nat) (h : Ready B w port) :
    ∃ w1 b, ensure_bridge B w port = some w1 ∧ w1.jtag ≠ 0 ∧ w1.jtag ≤ w1.heap.length ∧
      w1.mem = w.mem ∧ w1.deref w1.jtag = some b ∧ bridge_at_tick B w port = some b ∧
      jtag_tick B w tck tms tdi trstn tdo port =
        some (call_outcome B w1 b tck tms tdi trstn tdo) := by
  obtain ⟨w1, he, h0, h1, hm, _, _⟩ := ensure_bridge_ready B w port h
  obtain ⟨b, hb⟩ := deref_of_live w1 h0 h1
  refine ⟨w1, b, he, h0, h1, hm, hb, ?_, ?_⟩
  · simp [bridge_at_tick, he, hb]
  · rw [jtag_tick_of_ensure B w w1 tck tms tdi trstn tdo port he h0]
    exact jtag_tick_live B w1 tck tms tdi trstn tdo port b h0 h1 hb

/-! ## The status word (C1) -/

/-- C1: every call that can proceed returns; with `d` and `e` what `done()` and
`exit_code()` report after this call's `tick`, the returned `int` is `0` when `d` is
false and `(e << 1) | 1` in 32-bit arithmetic when `d` is true, for every `e`. -/
theorem jtag_tick_status_word {β : Type} (B : remote_bitbang_t β) (w : World β)
    (tck tms tdi trstn tdo port : Nat) (h : Ready B w port) :
    ∃ b r w', bridge_at_tick B w port = some b ∧
      jtag_tick B w tck tms tdi trstn tdo port = some (r, w') ∧
      (done_after_tick B b w.mem tck tms tdi trstn tdo = false → r = 0) ∧
      (done_after_tick B b w.mem tck tms tdi trstn tdo = true →
        r = Int.lor (shl_int (exit_code_after_tick B b w.mem tck tms tdi trstn tdo) 1) 1 ∧
        r = spec_status_word (exit_code_after_tick B b w.mem tck tms tdi trstn tdo)) := by
  obtain ⟨w1, b, _, _, _, hm, _, hbt, hj⟩ := jtag_tick_ready B w tck tms tdi trstn tdo port h
  refine ⟨b, _, _, hbt, hj, ?_, ?_⟩
  · intro hd
    simp [call_outcome, hm, hd]
  · intro hd
    simp only [call_outcome, hm, hd, if_true]
    exact ⟨trivial, status_word_spec _⟩

theorem jtag_tick_status_word_witness :
    Ready counting_bridge sample_world 7 ∧
    ∃ b r w', bridge_at_tick counting_bridge sample_world 7 = some b ∧
      jtag_tick counting_bridge sample_world 10 11 12 13 1 7 = some (r, w') ∧
      (done_after_tick counting_bridge b sample_world.mem 10 11 12 13 1 = false → r = 0) ∧
      (done_after_tick counting_bridge b sample_world.mem 10 11 12 13 1 = true →
        r = Int.lor (shl_int (exit_code_after_tick counting_bridge b sample_world.mem
              10 11 12 13 1) 1) 1 ∧
        r = spec_status_word (exit_code_after_tick counting_bridge b sample_world.mem
              10 11 12 13 1)) :=
  ⟨by decide, jtag_tick_status_word counting_bridge sample_world 10 11 12 13 1 7 (by decide)⟩

/-! ## Construction happens once (C2) -/

theorem ctor_calls_append (l1 l2 : List Call) :
    ctor_calls (l1 ++ l2) = ctor_calls l1 ++ ctor_calls l2 := by
  induction l1 with
  | nil => rfl
  | cons c l ih => cases c <;> simp [ctor_calls, ih]

theorem call_outcome_keeps {β : Type} (B : remote_bitbang_t β) (w : World β) (b : β)
    (tck tms tdi trstn tdo : Nat) :
    (call_outcome B w b tck tms tdi trstn tdo).2.jtag = w.jtag ∧
    (call_outcome B w b tck tms tdi trstn tdo).2.heap.length = w.heap.length ∧
    ctor_calls (call_outcome B w b tck tms tdi trstn tdo).2.log = ctor_calls w.log := by
  refine ⟨rfl, by simp [call_outcome], ?_⟩
  simp only [call_outcome, ctor_calls_append]
  split <;> simp [ctor_calls]

theorem run_live {β : Type} (B : remote_bitbang_t β) (cs : List TickCall) :
    ∀ w : World β, w.jtag ≠ 0 → w.jtag ≤ w.heap.length →
      ∃ w', run B w cs = some w' ∧ w'.jtag = w.jtag ∧ w'.heap.length = w.heap.length ∧
        ctor_calls w'.log = ctor_calls w.log := by
  induction cs with
  | nil => intro w _ _; exact ⟨w, rfl, rfl, rfl, rfl⟩
  | cons c cs ih =>
    intro w h0 h1
    have h0' : ({ w with mem := c.pre w.mem } : World β).jtag ≠ 0 := h0
    have h1' : ({ w with mem := c.pre w.mem } : World β).jtag ≤
        ({ w with mem := c.pre w.mem } : World β).heap.length := h1
    obtain ⟨b, hb⟩ := deref_of_live _ h0' h1'
    have hj := jtag_tick_live B _ c.tck c.tms c.tdi c.trstn c.tdo c.port b h0' h1' hb
    obtain ⟨k1, k2, k3⟩ := call_outcome_keeps B { w with mem := c.pre w.mem } b
      c.tck c.tms c.tdi c.trstn c.tdo
    obtain ⟨w', hr, hj', hh', hl'⟩ := ih (call_outcome B { w with mem := c.pre w.mem } b
      c.tck c.tms c.tdi c.trstn c.tdo).2 (by rw [k1]; exact h0) (by rw [k1, k2]; exact h1)
    refine ⟨w', ?_, ?_, ?_, ?_⟩
    · simp only [run, hj]; exact hr
    · rw [hj', k1]
    · rw [hh', k2]
    · rw [hl', k3]

/-- C2: in every sequence of one or more calls from the start state (in which the
first construction succeeds) the constructor is called exactly once, by the first call;
`jtag` after every call is the address assigned by the first call, only one object
is ever allocated, and one more call from the state reached neither constructs nor
changes `jtag`. -/
theorem bridge_constructed_once {β : Type} (B : remote_bitbang_t β) (m : Mem)
    (c : TickCall) (cs : List TickCall) (h : (B.ctor c.port).isSome = true) :
    ∃ w1 w, run B (World.start β m) [c] = some w1 ∧
      run B (World.start β m) (c :: cs) = some w ∧
      ctor_calls w1.log = [c.port] ∧ w1.jtag ≠ 0 ∧ w1.heap.length = 1 ∧
      ctor_calls w.log = [c.port] ∧ w.jtag = w1.jtag ∧ w.heap.length = 1 ∧
      ∀ c' : TickCall, ∃ r w', jtag_tick B { w with mem := c'.pre w.mem }
          c'.tck c'.tms c'.tdi c'.trstn c'.tdo c'.port = some (r, w') ∧
        ctor_calls w'.log = ctor_calls w.log ∧ w'.jtag = w.jtag ∧
        w'.heap.length = w.heap.length := by
  have hr : Ready B { World.start β m with mem := c.pre (World.start β m).mem } c.port := by
    simp [Ready, World.start, h]
  obtain ⟨w0, he, h0, h1, _, _, hnew⟩ := ensure_bridge_ready B _ c.port hr
  obtain ⟨b0, _, hw0⟩ := hnew rfl
  obtain ⟨b, hb⟩ := deref_of_live w0 h0 h1
  have hj := jtag_tick_of_ensure B _ w0 c.tck c.tms c.tdi c.trstn c.tdo c.port he h0
  rw [jtag_tick_live B w0 c.tck c.tms c.tdi c.trstn c.tdo c.port b h0 h1 hb] at hj
  obtain ⟨k1, k2, k3⟩ := call_outcome_keeps B w0 b c.tck c.tms c.tdi c.trstn c.tdo
  have hc0 : ctor_calls w0.log = [c.port] := by rw [hw0]; simp [World.start, ctor_calls]
  have hl0 : w0.heap.length = 1 := by rw [hw0]; simp [World.start]
  have a0 : (call_outcome B w0 b c.tck c.tms c.tdi c.trstn c.tdo).2.jtag ≠ 0 := by
    rw [k1]; exact h0
  have a1 : (call_outcome B w0 b c.tck c.tms c.tdi c.trstn c.tdo).2.jtag ≤
      (call_outcome B w0 b c.tck c.tms c.tdi c.trstn c.tdo).2.heap.length := by
    rw [k1, k2]; exact h1
  obtain ⟨w, hrun, hwj, hwh, hwl⟩ := run_live B cs _ a0 a1
  refine ⟨(call_outcome B w0 b c.tck c.tms c.tdi c.trstn c.tdo).2, w, ?_, ?_, ?_, a0, ?_,
    ?_, hwj, ?_, ?_⟩
  · simp only [run, hj]
  · simp only [run, hj]; exact hrun
  · rw [k3, hc0]
  · rw [k2, hl0]
  · rw [hwl, k3, hc0]
  · rw [hwh, k2, hl0]
  · intro c'
    have b0' : ({ w with mem := c'.pre w.mem } : World β).jtag ≠ 0 := by
      show w.jtag ≠ 0
      rw [hwj]; exact a0
    have b1' : ({ w with mem := c'.pre w.mem } : World β).jtag ≤
        ({ w with mem := c'.pre w.mem } : World β).heap.length := by
      show w.jtag ≤ w.heap.length
      rw [hwj, hwh]; exact a1
    obtain ⟨b', hb'⟩ := deref_of_live _ b0' b1'
    obtain ⟨q1, q2, q3⟩ := call_outcome_keeps B { w with mem := c'.pre w.mem } b'
      c'.tck c'.tms c'.tdi c'.trstn c'.tdo
    exact ⟨_, _, jtag_tick_live B _ c'.tck c'.tms c'.tdi c'.trstn c'.tdo c'.port b' b0' b1' hb',
      q3, q1, q2⟩

theorem bridge_constructed_once_witness :
    (counting_bridge.ctor sample_call.port).isSome = true ∧
    ∃ w1 w, run counting_bridge (World.start Nat zero_mem) [sample_call] = some w1 ∧
      run counting_bridge (World.start Nat zero_mem)
        (sample_call :: [sample_call, sample_call]) = some w ∧
      ctor_calls w1.log = [sample_call.port] ∧ w1.jtag ≠ 0 ∧ w1.heap.length = 1 ∧
      ctor_calls w.log = [sample_call.port] ∧ w.jtag = w1.jtag ∧ w.heap.length = 1 ∧
      ∀ c' : TickCall, ∃ r w', jtag_tick counting_bridge { w with mem := c'.pre w.mem }
          c'.tck c'.tms c'.tdi c'.trstn c'.tdo c'.port = some (r, w') ∧
        ctor_calls w'.log = ctor_calls w.log ∧ w'.jtag = w.jtag ∧
        w'.heap.length = w.heap.length :=
  ⟨by decide, bridge_constructed_once counting_bridge zero_mem sample_call
    [sample_call, sample_call] (by decide)⟩

/-! ## The port after the first call (C3) -/

/-- C3: once the bridge exists, two calls on the same state with the same pin pointers
and the same `TDO` but different ports both return, with the same returned `int` and
the same resulting state (bridge object, caller bytes, everything). -/
theorem port_ignored_after_first_call {β : Type} (B : remote_bitbang_t β) (w : World β)
    (tck tms tdi trstn tdo port1 port2 : Nat) (h0 : w.jtag ≠ 0)
    (h1 : w.jtag ≤ w.heap.length) :
    ∃ r w', jtag_tick B w tck tms tdi trstn tdo port1 = some (r, w') ∧
      jtag_tick B w tck tms tdi trstn tdo port2 = some (r, w') := by
  obtain ⟨b, hb⟩ := deref_of_live w h0 h1
  exact ⟨_, _, jtag_tick_live B w tck tms tdi trstn tdo port1 b h0 h1 hb,
    jtag_tick_live B w tck tms tdi trstn tdo port2 b h0 h1 hb⟩

theorem port_ignored_after_first_call_witness :
    sample_world.jtag ≠ 0 ∧ sample_world.jtag ≤ sample_world.heap.length ∧
    ∃ r w', jtag_tick counting_bridge sample_world 10 11 12 13 1 7 = some (r, w') ∧
      jtag_tick counting_bridge sample_world 10 11 12 13 1 0 = some (r, w') :=
  ⟨by decide, by decide,
    port_ignored_after_first_call counting_bridge sample_world 10 11 12 13 1 7 0
      (by decide) (by decide)⟩

/-! ## The first call (C4) -/

/-- C4: a call that finds `jtag` null calls the constructor with exactly the port it
was given, before the `tick`; when construction succeeds the new object is placed at a
fresh address, `jtag` holds that address after the call, the object there is the
constructed one as left by this call's `tick`, `done()` and `exit_code()`, and no
other object is touched.  When construction fails the call has no result. -/
theorem first_call_constructs_with_port {β : Type} (B : remote_bitbang_t β) (w : World β)
    (tck tms tdi trstn tdo p : Nat) (h0 : w.jtag = 0) :
    (B.ctor p = none → jtag_tick B w tck tms tdi trstn tdo p = none) ∧
    (∀ b, B.ctor p = some b →
      ∃ r w' rest, jtag_tick B w tck tms tdi trstn tdo p = some (r, w') ∧
        w'.log = w.log ++ Call.ctor p ::
          Call.tick (w.heap.length + 1) tck tms tdi trstn tdo :: rest ∧
        ctor_calls rest = [] ∧
        w'.jtag = w.heap.length + 1 ∧
        w'.heap = w.heap ++ [bridge_after_call B b w.mem tck tms tdi trstn tdo] ∧
        w'.deref w'.jtag = some (bridge_after_call B b w.mem tck tms tdi trstn tdo)) := by
  constructor
  · intro hn
    simp [jtag_tick, ensure_bridge, h0, new_remote_bitbang_t, hn]
  · intro b hb
    have hr : Ready B w p := by simp [Ready, h0, hb]
    obtain ⟨w1, he, h0', h1', _, _, hnew⟩ := ensure_bridge_ready B w p hr
    obtain ⟨b', hb', hw1⟩ := hnew h0
    have hbb : b' = b := by rw [hb] at hb'; exact (Option.some.inj hb').symm
    subst hbb
    have hd : w1.deref w1.jtag = some b' := by
      rw [hw1]; simp [World.deref]
    have hj := jtag_tick_of_ensure B w w1 tck tms tdi trstn tdo p he h0'
    rw [jtag_tick_live B w1 tck tms tdi trstn tdo p b' h0' h1' hd] at hj
    refine ⟨_, _, Call.done (w.heap.length + 1) ::
      (if done_after_tick B b' w.mem tck tms tdi trstn tdo then
        [Call.exit_code (w.heap.length + 1)] else []), hj, ?_, ?_, ?_, ?_, ?_⟩
    · rw [hw1]; simp [call_outcome]
    · split <;> simp [ctor_calls]
    · rw [hw1]
    · rw [hw1]; simp [call_outcome]
    · rw [hw1]; simp [call_outcome, World.deref]

theorem first_call_constructs_with_port_witness :
    (World.start Nat zero_mem).jtag = 0 ∧ counting_bridge.ctor 7 = some 0 ∧
    ∃ r w' rest,
      jtag_tick counting_bridge (World.start Nat zero_mem) 10 11 12 13 1 7 = some (r, w') ∧
      w'.log = (World.start Nat zero_mem).log ++ Call.ctor 7 ::
        Call.tick ((World.start Nat zero_mem).heap.length + 1) 10 11 12 13 1 :: rest ∧
      ctor_calls rest = [] ∧
      w'.jtag = (World.start Nat zero_mem).heap.length + 1 ∧
      w'.heap = (World.start Nat zero_mem).heap ++
        [bridge_after_call counting_bridge 0 (World.start Nat zero_mem).mem 10 11 12 13 1] ∧
      w'.deref w'.jtag =
        some (bridge_after_call counting_bridge 0 (World.start Nat zero_mem).mem
          10 11 12 13 1) :=
  ⟨rfl, rfl, (first_call_constructs_with_port counting_bridge (World.start Nat zero_mem)
    10 11 12 13 1 7 rfl).2 0 rfl⟩

/-! ## Bits of the status word (C5) -/

/-- C5: in every call that can proceed, bit 0 of the returned `int` is what `done()`
reported after the tick; the returned `int` is `0` exactly when that was false; it is a
32-bit value; and when `done()` was true its bits 1 to 31 are bits 0 to 30 of the exit
code, whatever the exit code is. -/
theorem status_bit_layout {β : Type} (B : remote_bitbang_t β) (w : World β)
    (tck tms tdi trstn tdo port : Nat) (h : Ready B w port) :
    ∃ b r w', bridge_at_tick B w port = some b ∧
      jtag_tick B w tck tms tdi trstn tdo port = some (r, w') ∧
      r.testBit 0 = done_after_tick B b w.mem tck tms tdi trstn tdo ∧
      (r = 0 ↔ done_after_tick B b w.mem tck tms tdi trstn tdo = false) ∧
      (-2 ^ 31 ≤ r ∧ r < 2 ^ 31) ∧
      (done_after_tick B b w.mem tck tms tdi trstn tdo = true →
        ∀ i, i < 31 →
          r.testBit (i + 1) = (exit_code_after_tick B b w.mem tck tms tdi trstn tdo).testBit i) := by
  obtain ⟨w1, b, _, _, _, hm, _, hbt, hj⟩ := jtag_tick_ready B w tck tms tdi trstn tdo port h
  refine ⟨b, _, _, hbt, hj, ?_⟩
  simp only [call_outcome, hm]
  cases hd : done_after_tick B b w.mem tck tms tdi trstn tdo
  · simp only [Bool.false_eq_true, if_false]
    refine ⟨by decide, by simp, by norm_num, ?_⟩
    intro hf; exact absurd hf (by decide)
  · simp only [if_true]
    refine ⟨status_word_testBit_zero _, ?_, status_word_range _, ?_⟩
    · constructor
      · intro h0
        have ho := status_word_odd (exit_code_after_tick B b w.mem tck tms tdi trstn tdo)
        rw [h0] at ho
        exact absurd ho (by decide)
      · intro hf; exact absurd hf (by decide)
    · intro _ i hi
      exact status_word_testBit_succ _ i hi

theorem status_bit_layout_witness :
    Ready counting_bridge sample_world 7 ∧
    ∃ b r w', bridge_at_tick counting_bridge sample_world 7 = some b ∧
      jtag_tick counting_bridge sample_world 10 11 12 13 1 7 = some (r, w') ∧
      r.testBit 0 = done_after_tick counting_bridge b sample_world.mem 10 11 12 13 1 ∧
      (r = 0 ↔ done_after_tick counting_bridge b sample_world.mem 10 11 12 13 1 = false) ∧
      (-2 ^ 31 ≤ r ∧ r < 2 ^ 31) ∧
      (done_after_tick counting_bridge b sample_world.mem 10 11 12 13 1 = true →
        ∀ i, i < 31 →
          r.testBit (i + 1) =
            (exit_code_after_tick counting_bridge b sample_world.mem 10 11 12 13 1).testBit i) :=
  ⟨by decide, status_bit_layout counting_bridge sample_world 10 11 12 13 1 7 (by decide)⟩

/-! ## Forwarding of the pins (C6) -/

theorem tick_calls_append (l1 l2 : List Call) :
    tick_calls (l1 ++ l2) = tick_calls l1 ++ tick_calls l2 := by
  induction l1 with
  | nil => rfl
  | cons c l ih => cases c <;> simp [tick_calls, ih]

/-- C6: every call that can proceed calls `tick` exactly once, through `jtag`, with the
caller's four pin pointers in the order `TCK`, `TMS`, `TDI`, `TRSTn` and with the
caller's `TDO`; `tick` runs on the caller's bytes as they were at the call, and the
bytes after the call are exactly the ones `tick` left. -/
theorem tick_forwarded_once {β : Type} (B : remote_bitbang_t β) (w : World β)
    (tck tms tdi trstn tdo port : Nat) (h : Ready B w port) :
    ∃ b r w' fresh, bridge_at_tick B w port = some b ∧
      jtag_tick B w tck tms tdi trstn tdo port = some (r, w') ∧
      w'.log = w.log ++ fresh ∧
      tick_calls fresh = [Call.tick w'.jtag tck tms tdi trstn tdo] ∧
      w'.mem = (B.tick b w.mem tck tms tdi trstn tdo).2 := by
  obtain ⟨w1, he, h0, h1, hm, hsame, hnew⟩ := ensure_bridge_ready B w port h
  obtain ⟨b, hb⟩ := deref_of_live w1 h0 h1
  have hbt : bridge_at_tick B w port = some b := by simp [bridge_at_tick, he, hb]
  have hj := jtag_tick_of_ensure B w w1 tck tms tdi trstn tdo port he h0
  rw [jtag_tick_live B w1 tck tms tdi trstn tdo port b h0 h1 hb] at hj
  by_cases hz : w.jtag = 0
  · obtain ⟨b', _, hw1⟩ := hnew hz
    refine ⟨b, _, _, Call.ctor port :: Call.tick w1.jtag tck tms tdi trstn tdo ::
      Call.done w1.jtag :: (if done_after_tick B b w1.mem tck tms tdi trstn tdo then
        [Call.exit_code w1.jtag] else []), hbt, hj, ?_, ?_, ?_⟩
    · simp only [call_outcome]
      rw [hw1]; simp
    · simp only [call_outcome, tick_calls]
      split <;> simp [tick_calls]
    · simp only [call_outcome, hm]
  · have hww : w1 = w := hsame hz
    refine ⟨b, _, _, Call.tick w1.jtag tck tms tdi trstn tdo ::
      Call.done w1.jtag :: (if done_after_tick B b w1.mem tck tms tdi trstn tdo then
        [Call.exit_code w1.jtag] else []), hbt, hj, ?_, ?_, ?_⟩
    · simp only [call_outcome]
      rw [hww]
    · simp only [call_outcome, tick_calls]
      split <;> simp [tick_calls]
    · simp only [call_outcome, hm]

theorem tick_forwarded_once_witness :
    Ready counting_bridge (World.start Nat zero_mem) 7 ∧
    ∃ b r w' fresh, bridge_at_tick counting_bridge (World.start Nat zero_mem) 7 = some b ∧
      jtag_tick counting_bridge (World.start Nat zero_mem) 10 11 12 13 1 7 = some (r, w') ∧
      w'.log = (World.start Nat zero_mem).log ++ fresh ∧
      tick_calls fresh = [Call.tick w'.jtag 10 11 12 13 1] ∧
      w'.mem = (counting_bridge.tick b (World.start Nat zero_mem).mem 10 11 12 13 1).2 :=
  ⟨by decide, tick_forwarded_once counting_bridge (World.start Nat zero_mem) 10 11 12 13 1 7
    (by decide)⟩

/-! ## The status is taken after the tick (C7) -/

/-- C7: when `done()` would report false on the object as the tick finds it and reports
true right after the tick, this very call returns `(e << 1) | 1` for the exit code `e`
reported after the tick, which is odd and so not `0`. -/
theorem status_taken_after_tick {β : Type} (B : remote_bitbang_t β) (w : World β)
    (tck tms tdi trstn tdo port : Nat) (b : β) (h : Ready B w port)
    (hb : bridge_at_tick B w port = some b) (hpre : (B.done b).1 = false)
    (hpost : done_after_tick B b w.mem tck tms tdi trstn tdo = true) :
    ∃ r w', jtag_tick B w tck tms tdi trstn tdo port = some (r, w') ∧
      r = Int.lor (shl_int (exit_code_after_tick B b w.mem tck tms tdi trstn tdo) 1) 1 ∧
      r % 2 = 1 ∧ r ≠ 0 := by
  obtain ⟨w1, b', _, _, _, hm, _, hbt, hj⟩ := jtag_tick_ready B w tck tms tdi trstn tdo port h
  have hbb : b' = b := by rw [hb] at hbt; exact (Option.some.inj hbt).symm
  subst hbb
  have ho := status_word_odd (exit_code_after_tick B b' w.mem tck tms tdi trstn tdo)
  refine ⟨_, _, hj, ?_, ?_, ?_⟩
  · simp only [call_outcome, hm, hpost, if_true]
  · simp only [call_outcome, hm, hpost, if_true]
    exact ho
  · simp only [call_outcome, hm, hpost, if_true]
    intro h0
    rw [h0] at ho
    exact absurd ho (by decide)

theorem status_taken_after_tick_witness :
    Ready one_shot_bridge (World.start Bool zero_mem) 7 ∧
    bridge_at_tick one_shot_bridge (World.start Bool zero_mem) 7 = some false ∧
    (one_shot_bridge.done false).1 = false ∧
    done_after_tick one_shot_bridge false (World.start Bool zero_mem).mem 10 11 12 13 1 = true ∧
    ∃ r w', jtag_tick one_shot_bridge (World.start Bool zero_mem) 10 11 12 13 1 7
        = some (r, w') ∧
      r = Int.lor (shl_int (exit_code_after_tick one_shot_bridge false
            (World.start Bool zero_mem).mem 10 11 12 13 1) 1) 1 ∧
      r % 2 = 1 ∧ r ≠ 0 :=
  ⟨by decide, rfl, rfl, rfl,
    status_taken_after_tick one_shot_bridge (World.start Bool zero_mem) 10 11 12 13 1 7 false
      (by decide) rfl rfl rfl⟩

/-! ## Decoding the status word (C8) -/

/-- C8: for two calls that can proceed and in which `done()` reports true after the tick,
with exit codes between `-2^30` and `2^30 - 1`: the arithmetic right shift by one of the
returned `int` is the exit code, and different exit codes give different returned
values.  With the exit code `2^30` the call returns `-2^31 + 1`, whose shift is `-2^30`
and not the exit code. -/
theorem status_decodable {β γ : Type} (B : remote_bitbang_t β) (w : World β)
    (tck tms tdi trstn tdo port : Nat) (b : β)
    (C : remote_bitbang_t γ) (v : World γ) (tck' tms' tdi' trstn' tdo' port' : Nat) (c : γ)
    (h : Ready B w port) (hb : bridge_at_tick B w port = some b)
    (hd : done_after_tick B b w.mem tck tms tdi trstn tdo = true)
    (hlo : -2 ^ 30 ≤ exit_code_after_tick B b w.mem tck tms tdi trstn tdo)
    (hhi : exit_code_after_tick B b w.mem tck tms tdi trstn tdo < 2 ^ 30)
    (h' : Ready C v port') (hc : bridge_at_tick C v port' = some c)
    (hd' : done_after_tick C c v.mem tck' tms' tdi' trstn' tdo' = true)
    (hlo' : -2 ^ 30 ≤ exit_code_after_tick C c v.mem tck' tms' tdi' trstn' tdo')
    (hhi' : exit_code_after_tick C c v.mem tck' tms' tdi' trstn' tdo' < 2 ^ 30) :
    (∃ r w' s v', jtag_tick B w tck tms tdi trstn tdo port = some (r, w') ∧
      jtag_tick C v tck' tms' tdi' trstn' tdo' port' = some (s, v') ∧
      Int.shiftRight r 1 = exit_code_after_tick B b w.mem tck tms tdi trstn tdo ∧
      Int.shiftRight s 1 = exit_code_after_tick C c v.mem tck' tms' tdi' trstn' tdo' ∧
      (exit_code_after_tick B b w.mem tck tms tdi trstn tdo ≠
          exit_code_after_tick C c v.mem tck' tms' tdi' trstn' tdo' → r ≠ s)) ∧
    (∃ r w', jtag_tick (fixed_bridge true (2 ^ 30)) (World.start Unit zero_mem)
        10 11 12 13 1 7 = some (r, w') ∧
      exit_code_after_tick (fixed_bridge true (2 ^ 30)) () zero_mem 10 11 12 13 1 = 2 ^ 30 ∧
      r = -2 ^ 31 + 1 ∧ Int.shiftRight r 1 = -2 ^ 30 ∧ Int.shiftRight r 1 ≠ 2 ^ 30) := by
  constructor
  · obtain ⟨w1, b1, _, _, _, hm, _, hbt, hj⟩ :=
      jtag_tick_ready B w tck tms tdi trstn tdo port h
    have e1 : b1 = b := by rw [hb] at hbt; exact (Option.some.inj hbt).symm
    subst e1
    obtain ⟨v1, c1, _, _, _, hm', _, hct, hj'⟩ :=
      jtag_tick_ready C v tck' tms' tdi' trstn' tdo' port' h'
    have e2 : c1 = c := by rw [hc] at hct; exact (Option.some.inj hct).symm
    subst e2
    have k1 := status_word_shiftRight _ hlo hhi
    have k2 := status_word_shiftRight _ hlo' hhi'
    refine ⟨_, _, _, _, hj, hj', ?_, ?_, ?_⟩
    · simp only [call_outcome, hm, hd, if_true]; exact k1
    · simp only [call_outcome, hm', hd', if_true]; exact k2
    · simp only [call_outcome, hm, hd, hm', hd', if_true]
      intro hne heq
      apply hne
      rw [← k1, ← k2, heq]
  · have hr : Ready (fixed_bridge true (2 ^ 30)) (World.start Unit zero_mem) 7 := by decide
    obtain ⟨w1, b1, _, _, _, hm, _, _, hj⟩ :=
      jtag_tick_ready (fixed_bridge true (2 ^ 30)) (World.start Unit zero_mem)
        10 11 12 13 1 7 hr
    have hv : (call_outcome (fixed_bridge true (2 ^ 30)) w1 b1 10 11 12 13 1).1
        = -2 ^ 31 + 1 := by
      have hd1 : done_after_tick (fixed_bridge true (2 ^ 30)) b1 w1.mem 10 11 12 13 1 = true :=
        rfl
      have he1 : exit_code_after_tick (fixed_bridge true (2 ^ 30)) b1 w1.mem 10 11 12 13 1
          = 2 ^ 30 := rfl
      simp only [call_outcome, hd1, he1, if_true]
      rw [status_word_eq]
      norm_num
    have ks : Int.shiftRight (-2 ^ 31 + 1) 1 = -2 ^ 30 := by
      show (-2 ^ 31 + 1 : Int) >>> (1 : Nat) = -2 ^ 30
      rw [Int.shiftRight_eq_div_pow]
      norm_num
    have kv : Int.shiftRight (call_outcome (fixed_bridge true (2 ^ 30)) w1 b1 10 11 12 13 1).1 1
        = -2 ^ 30 := by rw [hv]; exact ks
    refine ⟨_, _, hj, rfl, hv, kv, ?_⟩
    intro hbad
    have hh : (-2 ^ 30 : Int) = 2 ^ 30 := kv.symm.trans hbad
    norm_num at hh

theorem status_decodable_witness :
    Ready counting_bridge sample_world 7 ∧
    bridge_at_tick counting_bridge sample_world 7 = some 2 ∧
    done_after_tick counting_bridge 2 sample_world.mem 10 11 12 13 1 = true ∧
    -2 ^ 30 ≤ exit_code_after_tick counting_bridge 2 sample_world.mem 10 11 12 13 1 ∧
    exit_code_after_tick counting_bridge 2 sample_world.mem 10 11 12 13 1 < 2 ^ 30 ∧
    Ready one_shot_bridge (World.start Bool zero_mem) 7 ∧
    bridge_at_tick one_shot_bridge (World.start Bool zero_mem) 7 = some false ∧
    done_after_tick one_shot_bridge false (World.start Bool zero_mem).mem 10 11 12 13 1
      = true ∧
    -2 ^ 30 ≤ exit_code_after_tick one_shot_bridge false (World.start Bool zero_mem).mem
      10 11 12 13 1 ∧
    exit_code_after_tick one_shot_bridge false (World.start Bool zero_mem).mem
      10 11 12 13 1 < 2 ^ 30 ∧
    (∃ r w' s v', jtag_tick counting_bridge sample_world 10 11 12 13 1 7 = some (r, w') ∧
      jtag_tick one_shot_bridge (World.start Bool zero_mem) 10 11 12 13 1 7 = some (s, v') ∧
      Int.shiftRight r 1 = exit_code_after_tick counting_bridge 2 sample_world.mem
        10 11 12 13 1 ∧
      Int.shiftRight s 1 = exit_code_after_tick one_shot_bridge false
        (World.start Bool zero_mem).mem 10 11 12 13 1 ∧
      (exit_code_after_tick counting_bridge 2 sample_world.mem 10 11 12 13 1 ≠
          exit_code_after_tick one_shot_bridge false (World.start Bool zero_mem).mem
            10 11 12 13 1 → r ≠ s)) :=
  ⟨by decide, rfl, rfl, by decide, by decide, by decide, rfl, rfl, by decide, by decide,
    (status_decodable counting_bridge sample_world 10 11 12 13 1 7 2
      one_shot_bridge (World.start Bool zero_mem) 10 11 12 13 1 7 false
      (by decide) rfl rfl (by decide) (by decide)
      (by decide) rfl rfl (by decide) (by decide)).1⟩

/-! ## The bridge is present whenever it is used (C9) -/

theorem receivers_append (l1 l2 : List Call) :
    receivers (l1 ++ l2) = receivers l1 ++ receivers l2 := by
  induction l1 with
  | nil => rfl
  | cons c l ih => cases c <;> simp [receivers, ih]

theorem ensure_bridge_log {β : Type} (B : remote_bitbang_t β) (w w1 : World β) (port : Nat)
    (he : ensure_bridge B w port = some w1) :
    ∃ pre, w1.log = w.log ++ pre ∧ tick_calls pre = [] ∧ receivers pre = [] := by
  unfold ensure_bridge at he
  by_cases h0 : w.jtag = 0
  · rw [if_pos h0] at he
    unfold new_remote_bitbang_t at he
    cases hc : B.ctor port with
    | none => rw [hc] at he; exact absurd he (by simp)
    | some b =>
      rw [hc] at he
      have hw : w1 = _ := (Option.some.inj he).symm
      exact ⟨[Call.ctor port], by rw [hw], rfl, rfl⟩
  · rw [if_neg h0] at he
    have hw : w1 = w := (Option.some.inj he).symm
    exact ⟨[], by rw [hw]; simp, rfl, rfl⟩

theorem call_tick_live {β : Type} (B : remote_bitbang_t β) (w : World β)
    (tck tms tdi trstn tdo : Nat) (h0 : w.jtag ≠ 0) (h1 : w.jtag ≤ w.heap.length) :
    ∃ w2, call_tick B w w.jtag tck tms tdi trstn tdo = some w2 ∧ w2.jtag = w.jtag ∧
      w2.heap.length = w.heap.length := by
  obtain ⟨b, hb⟩ := deref_of_live w h0 h1
  simp only [call_tick, hb]
  exact ⟨_, rfl, rfl, by simp [World.put]⟩

theorem call_done_live {β : Type} (B : remote_bitbang_t β) (w : World β)
    (h0 : w.jtag ≠ 0) (h1 : w.jtag ≤ w.heap.length) :
    ∃ d w3, call_done B w w.jtag = some (d, w3) ∧ w3.jtag = w.jtag ∧
      w3.heap.length = w.heap.length := by
  obtain ⟨b, hb⟩ := deref_of_live w h0 h1
  simp only [call_done, hb]
  exact ⟨_, _, rfl, rfl, by simp [World.put]⟩

theorem call_exit_code_live {β : Type} (B : remote_bitbang_t β) (w : World β)
    (h0 : w.jtag ≠ 0) (h1 : w.jtag ≤ w.heap.length) :
    (call_exit_code B w w.jtag).isSome = true := by
  obtain ⟨b, hb⟩ := deref_of_live w h0 h1
  simp only [call_exit_code, hb, Option.isSome_some]

theorem receivers_outcome {β : Type} (B : remote_bitbang_t β) (w : World β) (b : β)
    (tck tms tdi trstn tdo : Nat) :
    ∀ p ∈ receivers (Call.tick w.jtag tck tms tdi trstn tdo :: Call.done w.jtag ::
      (if done_after_tick B b w.mem tck tms tdi trstn tdo then [Call.exit_code w.jtag]
       else [])), p = w.jtag := by
  intro p hp
  split at hp <;> simp [receivers] at hp <;> exact hp

/-- C9: when construction succeeds if it is needed (and a non-null `jtag` refers to an
allocated object), the lazy construction step leaves `jtag` non-null, the calls of
`tick`, `done()` and `exit_code()` through `jtag` all find an object, `jtag_tick`
returns a value, `jtag` is non-null and refers to an object after the call, and every
method called during the call was called through that non-null pointer. -/
theorem bridge_present_when_used {β : Type} (B : remote_bitbang_t β) (w : World β)
    (tck tms tdi trstn tdo port : Nat) (h : Ready B w port) :
    ∃ w1 w2 d w3 r w' fresh, ensure_bridge B w port = some w1 ∧ w1.jtag ≠ 0 ∧
      call_tick B w1 w1.jtag tck tms tdi trstn tdo = some w2 ∧
      call_done B w2 w2.jtag = some (d, w3) ∧
      (call_exit_code B w3 w3.jtag).isSome = true ∧
      jtag_tick B w tck tms tdi trstn tdo port = some (r, w') ∧
      w'.jtag ≠ 0 ∧ (w'.deref w'.jtag).isSome = true ∧
      w'.log = w.log ++ fresh ∧ (∀ p ∈ receivers fresh, p = w'.jtag) := by
  obtain ⟨w1, b, he, h0, h1, _, hb, _, hj⟩ := jtag_tick_ready B w tck tms tdi trstn tdo port h
  have hlt : w1.jtag - 1 < w1.heap.length := by omega
  obtain ⟨pre, hpre, _, hrec⟩ := ensure_bridge_log B w w1 port he
  obtain ⟨w2, ht, t0, t1⟩ := call_tick_live B w1 tck tms tdi trstn tdo h0 h1
  obtain ⟨d, w3, hd, d0, d1⟩ := call_done_live B w2 (by rw [t0]; exact h0)
    (by rw [t0, t1]; exact h1)
  have hx := call_exit_code_live B w3 (by rw [d0, t0]; exact h0)
    (by rw [d0, d1, t0, t1]; exact h1)
  refine ⟨w1, w2, d, w3, _, _, pre ++ (Call.tick w1.jtag tck tms tdi trstn tdo ::
    Call.done w1.jtag :: (if done_after_tick B b w1.mem tck tms tdi trstn tdo then
      [Call.exit_code w1.jtag] else [])), he, h0, ht, hd, hx, hj, h0, ?_, ?_, ?_⟩
  · simp [call_outcome, World.deref, h0, hlt]
  · simp only [call_outcome, hpre, List.append_assoc]
  · intro p hp
    rw [receivers_append, hrec, List.nil_append] at hp
    exact receivers_outcome B w1 b tck tms tdi trstn tdo p hp

theorem bridge_present_when_used_witness :
    Ready counting_bridge (World.start Nat zero_mem) 7 ∧
    ∃ w1 w2 d w3 r w' fresh, ensure_bridge counting_bridge (World.start Nat zero_mem) 7
        = some w1 ∧ w1.jtag ≠ 0 ∧
      call_tick counting_bridge w1 w1.jtag 10 11 12 13 1 = some w2 ∧
      call_done counting_bridge w2 w2.jtag = some (d, w3) ∧
      (call_exit_code counting_bridge w3 w3.jtag).isSome = true ∧
      jtag_tick counting_bridge (World.start Nat zero_mem) 10 11 12 13 1 7 = some (r, w') ∧
      w'.jtag ≠ 0 ∧ (w'.deref w'.jtag).isSome = true ∧
      w'.log = (World.start Nat zero_mem).log ++ fresh ∧
      (∀ p ∈ receivers fresh, p = w'.jtag) :=
  ⟨by decide, bridge_present_when_used counting_bridge (World.start Nat zero_mem)
    10 11 12 13 1 7 (by decide)⟩

end SimJTAG
